import Mathlib

/-!
Verification of the metadata-normalization core of a YouTube audio
downloader.  The Python sources (`main.py`, `discord-bot.py`) are shallowly
embedded below: Python values occurring in extractor metadata records are
modelled by `PyVal`, records (Python dicts) by association lists, and the
in-place mutating `normalize_metadata` by a function returning the updated
dict together with an optional exception (Python code can raise on
type-inconsistent input; the exception is modelled explicitly).
-/

/-- Model of a Python value as it can occur in a metadata record: a string,
a list, a dict, `None`, or any other value carrying its `str()` rendering
and its truthiness (e.g. `other "0" false` models the int `0`,
`other "True" true` models `True`). -/
inductive PyVal where
  | str (s : String)
  | vlist (l : List PyVal)
  | vdict (d : List (String × PyVal))
  | vnone
  | other (repr : String) (truthy : Bool)

/-- A Python dict with string keys, as the extractor produces. -/
abbrev PyDict := List (String × PyVal)

/-- Python truthiness (`bool(v)`) for the modelled values. -/
def pyTruthy : PyVal → Bool
  | PyVal.str s => s != ""
  | PyVal.vlist l => !l.isEmpty
  | PyVal.vdict d => !d.isEmpty
  | PyVal.vnone => false
  | PyVal.other _ t => t

/-- Truthiness of `info.get(k)`: an absent key behaves like `None`. -/
def optTruthy : Option PyVal → Bool
  | Option.none => false
  | some v => pyTruthy v

mutual
/-- Python `repr()` of a value, as used when lists/dicts are stringified. -/
def pyRepr : PyVal → String
  | PyVal.str s => "\x27" ++ s ++ "\x27"
  | PyVal.vlist l => "[" ++ pyReprList l ++ "]"
  | PyVal.vdict d => "\x7b" ++ pyReprDict d ++ "\x7d"
  | PyVal.vnone => "None"
  | PyVal.other r _ => r

/-- Comma-separated `repr`s of the elements of a list. -/
def pyReprList : List PyVal → String
  | [] => ""
  | [x] => pyRepr x
  | x :: y :: xs => pyRepr x ++ ", " ++ pyReprList (y :: xs)

/-- Comma-separated `key: value` `repr`s of the entries of a dict. -/
def pyReprDict : List (String × PyVal) → String
  | [] => ""
  | [(k, v)] => "\x27" ++ k ++ "\x27: " ++ pyRepr v
  | (k, v) :: e :: xs => "\x27" ++ k ++ "\x27: " ++ pyRepr v ++ ", " ++ pyReprDict (e :: xs)
end

/-- Python `str()` of a value. -/
def pyStr : PyVal → String
  | PyVal.str s => s
  | PyVal.vlist l => "[" ++ pyReprList l ++ "]"
  | PyVal.vdict d => "\x7b" ++ pyReprDict d ++ "\x7d"
  | PyVal.vnone => "None"
  | PyVal.other r _ => r

/-- Whitespace predicate used by Python `str.strip()`. -/
def isSp (c : Char) : Bool := c.isWhitespace

/-- Python `s.strip()`: remove leading and trailing whitespace. -/
def pyStrip (s : String) : String :=
  String.mk (((s.data.dropWhile isSp).reverse.dropWhile isSp).reverse)

/-- Python `s.lstrip(" -:|")`: remove leading separator characters. -/
def pyLstripSeps (s : String) : String :=
  String.mk (s.data.dropWhile (fun c => c == ' ' || c == '-' || c == ':' || c == '|'))

/-- Python `s.lower()` (ASCII case folding, as relevant here). -/
def strLower (s : String) : String := String.mk (s.data.map Char.toLower)

/-- Python slicing `s[n:]` on a string (by code points, like Python `len`). -/
def strDrop (s : String) (n : Nat) : String := String.mk (s.data.drop n)

/-- Character-list test that `pat` is an initial segment of `l`. -/
def chPref : List Char → List Char → Bool
  | [], _ => true
  | _ :: _, [] => false
  | a :: as, b :: bs => a == b && chPref as bs

/-- Python `s.startswith(pre)`. -/
def strStartsWith (s pre : String) : Bool := chPref pre.data s.data

/-- Helper for `pySplitComma`: scan the characters, cutting at commas. -/
def splitCommaAux : List Char → List Char → List String
  | [], cur => [String.mk cur.reverse]
  | c :: rest, cur =>
    if c = ',' then String.mk cur.reverse :: splitCommaAux rest []
    else splitCommaAux rest (c :: cur)

/-- Python `s.split(',')` (keeps empty pieces; `"".split(',') == [""]`). -/
def pySplitComma (s : String) : List String := splitCommaAux s.data []

/-- Python `" & ".join(l)`. -/
def joinAmp : List String → String
  | [] => ""
  | [x] => x
  | x :: y :: xs => x ++ " & " ++ joinAmp (y :: xs)

/-- Python `"\n".join(l)`. -/
def joinNL : List String → String
  | [] => ""
  | [x] => x
  | x :: y :: xs => x ++ "\n" ++ joinNL (y :: xs)

/-- Dict lookup `info.get(k)`: first binding of the key, if any. -/
def PyDict.get : PyDict → String → Option PyVal
  | [], _ => Option.none
  | (k2, v) :: rest, k => if k2 = k then some v else PyDict.get rest k

/-- Dict update `info[k] = v`: replace the binding in place, else append. -/
def PyDict.set : PyDict → String → PyVal → PyDict
  | [], k, v => [(k, v)]
  | (k2, v2) :: rest, k, v =>
    if k2 = k then (k, v) :: rest else (k2, v2) :: PyDict.set rest k v

/-- Python `k in info`. -/
def PyDict.hasKey (d : PyDict) (k : String) : Bool := (PyDict.get d k).isSome

/-- `main.py` lines 68-70: the raw artist source, `info.get('artist')`
with fallback to `info.get('uploader')` when falsy. -/
def rawArtistOf (info : PyDict) : Option PyVal :=
  let a := PyDict.get info "artist"
  if optTruthy a then a else PyDict.get info "uploader"

/-- `main.py` lines 76-81: candidate parts of the raw artist value. -/
def artistParts : PyVal → List PyVal
  | PyVal.str s => (pySplitComma s).map PyVal.str
  | PyVal.vlist l => l
  | v => [PyVal.str (pyStr v)]

/-- `main.py` lines 84-89: clean each part, keep non-empty parts not seen
before (case-insensitively), in order. -/
def artistLoop : List PyVal → List String → List String
  | [], _ => []
  | p :: rest, seen =>
    let cp := pyStrip (pyStr p)
    if cp != "" && !(seen.contains (strLower cp)) then
      cp :: artistLoop rest (strLower cp :: seen)
    else
      artistLoop rest seen

/-- `main.py` lines 72-91: the final artist candidate list (capped at 3). -/
def finalArtistList (info : PyDict) : List String :=
  match rawArtistOf info with
  | Option.none => []
  | some v => if pyTruthy v then (artistLoop (artistParts v) []).take 3 else []

/-- `main.py` lines 93-96: the final artist string. -/
def finalArtist (info : PyDict) : String :=
  let l := finalArtistList info
  if l.isEmpty then "Unknown Artist" else joinAmp l

/-- `main.py` lines 103-105: current track, with `info.get('title',
'Unknown Track')` as fallback when the track value is falsy. -/
def selectTrack (info : PyDict) : PyVal :=
  match PyDict.get info "track" with
  | some v => if pyTruthy v then v else (PyDict.get info "title").getD (PyVal.str "Unknown Track")
  | Option.none => (PyDict.get info "title").getD (PyVal.str "Unknown Track")

/-- `main.py` lines 111-128: duplicate-artist stripping of the track.
When the branch slices a non-string track the Python code raises
(`TypeError` on unsubscriptable values, `AttributeError` on `lstrip` of a
list); that is modelled with `Except.error`. -/
def trackAfterStrip (fa : String) (ct : PyVal) : Except String PyVal :=
  if fa != "" && fa != "Unknown Artist" then
    if strStartsWith (strLower (pyStr ct)) (strLower fa) then
      match ct with
      | PyVal.str s =>
        let cleaned := pyLstripSeps (strDrop s fa.length)
        if pyStrip cleaned != "" then Except.ok (PyVal.str cleaned) else Except.ok (PyVal.str s)
      | PyVal.vlist _ => Except.error "AttributeError"
      | _ => Except.error "TypeError"
    else Except.ok ct
  else Except.ok ct

/-- `main.py` lines 61-132, `normalize_metadata`: returns the mutated dict
together with the exception, if one was raised.  The artist is written
before the track section runs, so on an exception the returned dict holds
the new artist but an untouched track (matching the in-place mutation
order of the source). -/
def normalize_metadata (info : PyDict) : PyDict × Option String :=
  let fa := finalArtist info
  let info1 := PyDict.set info "artist" (PyVal.str fa)
  match trackAfterStrip fa (selectTrack info1) with
  | Except.ok t => (PyDict.set info1 "track" t, Option.none)
  | Except.error e => (info1, some e)

/-- Python `True` as stored under `is_playlist`. -/
def pyTrue : PyVal := PyVal.other "True" true

/-- Python `False` as stored under `is_playlist`. -/
def pyFalse : PyVal := PyVal.other "False" false

/-- `main.py` lines 277-279 / 297-299: the displayed track of a normalized
record, `temp.get('track')` with `temp.get('title', 'Unknown Title')` as
fallback when falsy. -/
def trackTitleOf (temp : PyDict) : PyVal :=
  match PyDict.get temp "track" with
  | some v => if pyTruthy v then v else (PyDict.get temp "title").getD (PyVal.str "Unknown Title")
  | Option.none => (PyDict.get temp "title").getD (PyVal.str "Unknown Title")

/-- `main.py` lines 281-283 / 301-303: the displayed artist of a normalized
record, `temp.get('artist')` with `temp.get('uploader', 'Unknown Artist')`
as fallback when falsy. -/
def artistNameOf (temp : PyDict) : PyVal :=
  match PyDict.get temp "artist" with
  | some v => if pyTruthy v then v else (PyDict.get temp "uploader").getD (PyVal.str "Unknown Artist")
  | Option.none => (PyDict.get temp "uploader").getD (PyVal.str "Unknown Artist")

/-- `main.py` lines 285-291: the result dict appended for one playlist
entry (`temp` is the entry after normalization, `info` the playlist dict). -/
def builtItem (url : String) (info temp : PyDict) : PyDict :=
  [("artist", artistNameOf temp), ("title", trackTitleOf temp), ("is_playlist", pyTrue),
   ("playlist_title", (PyDict.get info "title").getD (PyVal.str "Unknown Playlist")),
   ("original_url", PyVal.str url)]

/-- `main.py` lines 305-310: the result dict for a single video (`temp` is
the info dict after normalization). -/
def singleBuilt (url : String) (temp : PyDict) : PyDict :=
  [("artist", artistNameOf temp), ("title", trackTitleOf temp), ("is_playlist", pyFalse),
   ("original_url", PyVal.str url)]

/-- `main.py` lines 270-291: the playlist loop.  Each entry must be a dict
(`entry.copy()` / the `.get` calls raise otherwise) and its normalization
must succeed; any exception aborts the whole extraction (the caller's
`except` returns `[]`, discarding the partial `results`). -/
def processEntries (url : String) (info : PyDict) : List PyVal → Except String (List PyDict)
  | [] => Except.ok []
  | PyVal.vdict d :: rest =>
    (match normalize_metadata d with
     | (_, some e) => Except.error e
     | (temp, Option.none) =>
       match processEntries url info rest with
       | Except.ok others => Except.ok (builtItem url info temp :: others)
       | Except.error e => Except.error e)
  | _ :: _ => Except.error "AttributeError"

/-- `main.py` lines 240-316, `get_video_info`, given the dict the extractor
returned (`Option.none` models `extract_info` returning nothing): produces
the result list; every exception path of the source returns `[]`. -/
def get_video_info_core (url : String) (info : Option PyDict) : List PyDict :=
  match info with
  | Option.none => []
  | some d =>
    if d.isEmpty then []
    else if PyDict.hasKey d "entries" then
      match PyDict.get d "entries" with
      | some (PyVal.vlist l) =>
        (match processEntries url d l with
         | Except.ok results => results
         | Except.error _ => [])
      | _ => []
    else
      match normalize_metadata d with
      | (_, some _) => []
      | (temp, Option.none) => [singleBuilt url temp]

/-- The aggregated report abstraction of the result list: the caller reads
`data[0].get('is_playlist')` and `data[0].get('playlist_title')`; an empty
list is "nothing found". -/
structure AggregatedReport where
  is_playlist : Bool
  playlist_title : Option PyVal
  items : List PyDict

/-- View a result list as an `AggregatedReport`. -/
def reportOf (results : List PyDict) : AggregatedReport :=
  match results.head? with
  | Option.none => { is_playlist := false, playlist_title := Option.none, items := results }
  | some r =>
    { is_playlist := optTruthy (PyDict.get r "is_playlist"),
      playlist_title := PyDict.get r "playlist_title", items := results }

/-- `discord-bot.py` line 114: the truncation marker line. -/
def truncMarker : String := "... (truncated)"

/-- `discord-bot.py` line 112: `f"{i}. {item['title']} - {item['artist']}"`. -/
def showLine (i : Nat) (item : PyDict) : String :=
  toString i ++ ". " ++ pyStr ((PyDict.get item "title").getD PyVal.vnone) ++ " - " ++
    pyStr ((PyDict.get item "artist").getD PyVal.vnone)

/-- `discord-bot.py` lines 111-116: append item lines while the cumulative
joined length stays within 1900; otherwise append the marker and stop. -/
def renderLoop (msgs : List String) (i : Nat) : List PyDict → List String
  | [] => msgs
  | item :: rest =>
    let line := showLine i item
    if (joinNL msgs ++ "\n" ++ line).length > 1900 then msgs ++ [truncMarker]
    else renderLoop (msgs ++ [line]) (i + 1) rest

/-- `discord-bot.py` lines 107-109: the two header lines of the playlist
reply (`data[0].get('playlist_title')` and the entry count). -/
def hdrs (data : List PyDict) : List String :=
  ["**Playlist:** " ++ pyStr ((PyDict.get ((data.head?).getD []) "playlist_title").getD PyVal.vnone),
   "**Found " ++ toString data.length ++ " entries:**"]

/-- `discord-bot.py` lines 105-128, playlist branch of `showmusic`: the
final `response_text`. -/
def showmusicRender (data : List PyDict) : String := joinNL (renderLoop (hdrs data) 1 data)

/-- The numbered item lines, starting at index `i`. -/
def linesFrom (i : Nat) : List PyDict → List String
  | [] => []
  | item :: rest => showLine i item :: linesFrom (i + 1) rest

/-- Claim side (C1): the raw artist source as the spec words it --
`artist_field` if present and non-empty, else `uploader_field`, else none. -/
def rawSource (info : PyDict) : Option PyVal :=
  if optTruthy (PyDict.get info "artist") then PyDict.get info "artist"
  else if optTruthy (PyDict.get info "uploader") then PyDict.get info "uploader"
  else Option.none

/-- Claim side (C1): trimmed candidates with empty ones discarded. -/
def cleanCands (v : PyVal) : List String :=
  ((artistParts v).map (fun p => pyStrip (pyStr p))).filter (fun s => s != "")

/-- Claim side (C1): case-insensitive deduplication preserving the order
and the casing of the first occurrence. -/
def dedupCI : List String → List String
  | [] => []
  | x :: xs => x :: dedupCI (xs.filter (fun y => strLower y != strLower x))
termination_by l => l.length
decreasing_by
  simp only [List.length_cons]
  exact Nat.lt_succ_of_le (List.length_filter_le _ _)

/-- Claim side (C1): the normalized artist as the claim words it. -/
def artistClaim (info : PyDict) : String :=
  match rawSource info with
  | Option.none => "Unknown Artist"
  | some v =>
    let survivors := (dedupCI (cleanCands v)).take 3
    if survivors.isEmpty then "Unknown Artist" else joinAmp survivors

/-- Claim side (C2, amended): the normalized track -- the claim's algorithm
without the trailing-whitespace stripping the code does not perform. -/
def amendedTrack (info : PyDict) : PyVal :=
  let A := finalArtist info
  let t0 := selectTrack info
  if A != "Unknown Artist" then
    match t0 with
    | PyVal.str s =>
      if strStartsWith (strLower s) (strLower A) then
        (let cleaned := pyLstripSeps (strDrop s A.length)
         if pyStrip cleaned != "" then PyVal.str cleaned else PyVal.str s)
      else PyVal.str s
    | v => v
  else t0

/-- Claim side (C2, original wording): the claim's track algorithm with the
surviving remainder additionally stripped of surrounding whitespace. -/
def claimTrack (info : PyDict) : PyVal :=
  let A := finalArtist info
  let t0 := selectTrack info
  if A != "Unknown Artist" then
    match t0 with
    | PyVal.str s =>
      if strStartsWith (strLower s) (strLower A) then
        (let cleaned := pyStrip (pyLstripSeps (strDrop s A.length))
         if cleaned != "" then PyVal.str cleaned else PyVal.str s)
      else PyVal.str s
    | v => v
  else t0

/-- The record rebuilt from a normalization result, for the idempotence
claim (C4): `artist_field` and `track_field` set to the produced values. -/
def rebuildRecord (A T : String) : PyDict :=
  [("artist", PyVal.str A), ("track", PyVal.str T)]

/-- Concrete record: artist `"A"`, track `"A - song "` (trailing space). -/
def cex2 : PyDict := [("artist", PyVal.str "A"), ("track", PyVal.str "A - song ")]

/-- Concrete record: artist `"X"`, track `"XX"` (doubled artist). -/
def cex3 : PyDict := [("artist", PyVal.str "X"), ("track", PyVal.str "XX")]

/-- Concrete record for C3's witness: artist `"A"`, track `"A - B"`. -/
def w3 : PyDict := [("artist", PyVal.str "A"), ("track", PyVal.str "A - B")]

/-- Concrete record: a list-typed artist whose single element contains a
comma, so the produced artist `"A, B"` is re-split when normalized again. -/
def cex4 : PyDict := [("artist", PyVal.vlist [PyVal.str "A, B"])]

/-- Concrete record for C4's witness: artist `"Bob"`, track `"Bob - Song"`. -/
def w4 : PyDict := [("artist", PyVal.str "Bob"), ("track", PyVal.str "Bob - Song")]

/-- Concrete record on which `normalize_metadata` raises: the artist
becomes `"None"` and the track falls back to the present-but-`None` title,
whose `str()` starts with the artist, so the code slices `None`. -/
def cex5 : PyDict := [("artist", PyVal.str "None"), ("title", PyVal.vnone)]

/-- Concrete record for C5's witness: a plain string track. -/
def w5 : PyDict := [("track", PyVal.str "Song")]

/-- A 1856-character title, sized so that the first item line makes the
joined message exactly 1900 characters long. -/
def bigT : String := String.mk (List.replicate 1856 'T')

/-- First playlist item of the C6 counterexample. -/
def item61 : PyDict :=
  [("title", PyVal.str bigT), ("artist", PyVal.str "A"), ("playlist_title", PyVal.str "P")]

/-- Second playlist item of the C6 counterexample. -/
def item62 : PyDict := [("title", PyVal.str "t"), ("artist", PyVal.str "a")]

/-- The C6 counterexample playlist data. -/
def cdata6 : List PyDict := [item61, item62]

/-- Concrete playlist entry for C7's witness. -/
def e7 : PyDict := [("uploader", PyVal.str "U"), ("title", PyVal.str "Song")]

/-- Concrete extractor dict for C7's witness. -/
def d7 : PyDict := [("title", PyVal.str "PL"), ("entries", PyVal.vlist [PyVal.vdict e7])]

/-- Concrete playlist entry with a non-empty album field. -/
def e9 : PyDict :=
  [("artist", PyVal.str "A"), ("title", PyVal.str "T"), ("album", PyVal.str "AlbumX")]

/-- Concrete extractor dict holding `e9` as its only entry. -/
def d9 : PyDict := [("title", PyVal.str "PL"), ("entries", PyVal.vlist [PyVal.vdict e9])]

/-- Concrete record for C10's witness. -/
def w10 : PyDict := [("album", PyVal.str "X"), ("uploader", PyVal.str "U")]

lemma get_set_self (d : PyDict) (k : String) (v : PyVal) :
    PyDict.get (PyDict.set d k v) k = some v := by
  induction d with
  | nil => simp [PyDict.set, PyDict.get]
  | cons e rest ih =>
    obtain ⟨k2, v2⟩ := e
    by_cases h : k2 = k
    · simp [PyDict.set, h, PyDict.get]
    · simp [PyDict.set, h, PyDict.get, ih]

lemma get_set_ne (d : PyDict) (k k2 : String) (v : PyVal) (h : k2 ≠ k) :
    PyDict.get (PyDict.set d k v) k2 = PyDict.get d k2 := by
  induction d with
  | nil =>
    simp only [PyDict.set, PyDict.get]
    rw [if_neg (fun hh => h hh.symm)]
  | cons e rest ih =>
    obtain ⟨k2', v2⟩ := e
    by_cases hk : k2' = k
    · subst hk
      simp only [PyDict.set, if_pos rfl, PyDict.get]
      rw [if_neg (fun hh => h hh.symm), if_neg (fun hh => h hh.symm)]
    · simp only [PyDict.set, if_neg hk, PyDict.get]
      by_cases hx : k2' = k2
      · rw [if_pos hx, if_pos hx]
      · rw [if_neg hx, if_neg hx, ih]

lemma selectTrack_set_artist (info : PyDict) (x : PyVal) :
    selectTrack (PyDict.set info "artist" x) = selectTrack info := by
  unfold selectTrack
  rw [get_set_ne info "artist" "track" x (by decide),
      get_set_ne info "artist" "title" x (by decide)]

lemma normalize_artist_eq (info : PyDict) :
    PyDict.get (normalize_metadata info).1 "artist"
      = some (PyVal.str (finalArtist info)) := by
  simp only [normalize_metadata]
  cases htr : trackAfterStrip (finalArtist info)
      (selectTrack (PyDict.set info "artist" (PyVal.str (finalArtist info)))) with
  | ok t =>
    simp only [htr]
    rw [get_set_ne _ "track" "artist" _ (by decide), get_set_self]
  | error e =>
    simp only [htr]
    rw [get_set_self]

lemma normalize_track_some (info : PyDict)
    (h : (normalize_metadata info).2 = Option.none) :
    ∃ t, trackAfterStrip (finalArtist info) (selectTrack info) = Except.ok t
      ∧ PyDict.get (normalize_metadata info).1 "track" = some t := by
  simp only [normalize_metadata, selectTrack_set_artist] at h ⊢
  cases htr : trackAfterStrip (finalArtist info) (selectTrack info) with
  | ok t =>
    refine ⟨t, rfl, ?_⟩
    simp only [htr]
    rw [get_set_self]
  | error e =>
    rw [htr] at h
    simp at h

lemma artistLoop_mem_ne (parts : List PyVal) (seen : List String) :
    ∀ x ∈ artistLoop parts seen, x ≠ "" := by
  induction parts generalizing seen with
  | nil => simp [artistLoop]
  | cons p rest ih =>
    intro x hx
    simp only [artistLoop] at hx
    by_cases hc : (pyStrip (pyStr p) != ""
        && !(seen.contains (strLower (pyStrip (pyStr p))))) = true
    · rw [if_pos hc] at hx
      rcases List.mem_cons.mp hx with h | h
      · subst h
        intro he
        rw [he] at hc
        simp at hc
      · exact ih _ _ h
    · rw [if_neg hc] at hx
      exact ih _ _ hx

lemma joinAmp_ne_empty (l : List String) (h0 : l ≠ []) (h : ∀ x ∈ l, x ≠ "") :
    joinAmp l ≠ "" := by
  match l with
  | [x] => simpa using h x (by simp)
  | x :: y :: ys =>
    simp only [joinAmp]
    intro he
    have hlen := congrArg String.length he
    rw [String.length_append, String.length_append] at hlen
    rw [show (" & ").length = 3 from rfl, show ("" : String).length = 0 from rfl] at hlen
    omega

lemma finalArtistList_mem_ne (info : PyDict) :
    ∀ x ∈ finalArtistList info, x ≠ "" := by
  simp only [finalArtistList]
  cases h : rawArtistOf info with
  | none => simp
  | some v =>
    by_cases ht : pyTruthy v
    · simp only [ht, if_true]
      intro x hx
      exact artistLoop_mem_ne _ _ x (List.take_subset _ _ hx)
    · simp [ht]

lemma finalArtist_ne_empty (info : PyDict) : finalArtist info ≠ "" := by
  simp only [finalArtist]
  by_cases h : (finalArtistList info).isEmpty
  · simp [h]
  · rw [Bool.not_eq_true] at h
    rw [h]
    simp only [Bool.false_eq_true, if_false]
    exact joinAmp_ne_empty _ (List.isEmpty_eq_false.mp h) (finalArtistList_mem_ne info)

lemma dedupCI_cons (x : String) (xs : List String) :
    dedupCI (x :: xs) = x :: dedupCI (xs.filter (fun y => strLower y != strLower x)) := by
  simp [dedupCI]

lemma artistLoop_eq (parts : List PyVal) (seen : List String) :
    artistLoop parts seen
      = dedupCI (((parts.map (fun p => pyStrip (pyStr p))).filter (fun s => s != "")).filter
          (fun s => !(seen.contains (strLower s)))) := by
  induction parts generalizing seen with
  | nil => simp [artistLoop, dedupCI]
  | cons p rest ih =>
    simp only [artistLoop]
    by_cases hc : (pyStrip (pyStr p) != "") = true
    · by_cases hs : seen.contains (strLower (pyStrip (pyStr p))) = true
      · simp only [List.map_cons, List.filter_cons, hc, hs, Bool.not_true, Bool.and_false,
          Bool.true_and, eq_self_iff_true, if_true, Bool.false_eq_true, if_false]
        exact ih seen
      · have hs2 : seen.contains (strLower (pyStrip (pyStr p))) = false := by
          rw [Bool.not_eq_true] at hs
          exact hs
        simp only [List.map_cons, List.filter_cons, hc, hs2, Bool.not_false, Bool.and_true,
          Bool.true_and, eq_self_iff_true, if_true]
        rw [ih (strLower (pyStrip (pyStr p)) :: seen), dedupCI_cons]
        refine congrArg (fun l => pyStrip (pyStr p) :: dedupCI l) ?_
        simp only [List.filter_filter]
        refine List.filter_congr ?_
        intro x hx
        simp only [List.contains_cons, Bool.not_or, bne, Bool.and_assoc]
    · have hc2 : (pyStrip (pyStr p) != "") = false := by
        rw [Bool.not_eq_true] at hc
        exact hc
      simp only [List.map_cons, List.filter_cons, hc2, Bool.false_and, Bool.false_eq_true,
        if_false]
      exact ih seen

lemma finalArtist_eq_claim (info : PyDict) : finalArtist info = artistClaim info := by
  simp only [finalArtist, finalArtistList, artistClaim, rawSource, rawArtistOf]
  by_cases ha : optTruthy (PyDict.get info "artist") = true
  · simp only [ha, if_true]
    cases hg : PyDict.get info "artist" with
    | none =>
      rw [hg] at ha
      simp [optTruthy] at ha
    | some v =>
      rw [hg] at ha
      simp only [optTruthy] at ha
      simp only [hg, ha, if_true]
      rw [artistLoop_eq]
      simp only [List.contains_nil, Bool.not_false, List.filter_true, cleanCands]
  · have ha2 : optTruthy (PyDict.get info "artist") = false := by
      rw [Bool.not_eq_true] at ha
      exact ha
    simp only [ha2, Bool.false_eq_true, if_false]
    by_cases hu : optTruthy (PyDict.get info "uploader") = true
    · simp only [hu, if_true]
      cases hg : PyDict.get info "uploader" with
      | none =>
        rw [hg] at hu
        simp [optTruthy] at hu
      | some v =>
        rw [hg] at hu
        simp only [optTruthy] at hu
        simp only [hg, hu, if_true]
        rw [artistLoop_eq]
        simp only [List.contains_nil, Bool.not_false, List.filter_true, cleanCands]
    · have hu2 : optTruthy (PyDict.get info "uploader") = false := by
        rw [Bool.not_eq_true] at hu
        exact hu
      simp only [hu2, Bool.false_eq_true, if_false]
      cases hg : PyDict.get info "uploader" with
      | none => simp
      | some v =>
        rw [hg] at hu2
        simp only [optTruthy] at hu2
        simp only [hg, hu2, Bool.false_eq_true, if_false]
        simp

lemma trackAfterStrip_str_ok (fa : String) (s : String) :
    ∃ r, trackAfterStrip fa (PyVal.str s) = Except.ok r := by
  simp only [trackAfterStrip]
  by_cases h1 : (fa != "" && fa != "Unknown Artist") = true
  · simp only [h1, if_true]
    by_cases h2 : strStartsWith (strLower (pyStr (PyVal.str s))) (strLower fa) = true
    · simp only [h2, if_true]
      by_cases h3 : (pyStrip (pyLstripSeps (strDrop s fa.length)) != "") = true
      · exact ⟨_, by rw [if_pos h3]⟩
      · exact ⟨_, by rw [if_neg h3]⟩
    · exact ⟨_, by rw [if_neg h2]⟩
  · exact ⟨_, by rw [if_neg h1]⟩

/-- C1: for every raw metadata record the artist written by
`normalize_metadata` equals the claim's algorithm: source selection
(artist field if truthy, else uploader), comma-splitting for a string
source, the elements for a list source, the single stringified value
otherwise, trimming, discarding empties, case-insensitive deduplication
preserving the order and casing of first occurrences, capping at 3, and
joining with " & " -- with "Unknown Artist" when nothing survives. -/
theorem artist_normalization_spec (info : PyDict) :
    PyDict.get (normalize_metadata info).1 "artist"
      = some (PyVal.str (artistClaim info)) := by
  rw [normalize_artist_eq, finalArtist_eq_claim]

/-- C10: `normalize_metadata` changes only the artist and track entries:
any other key is bound to the same value before and after the call (and is
present afterwards iff it was present before). -/
theorem normalize_frame_spec (info : PyDict) (k : String)
    (h1 : k ≠ "artist") (h2 : k ≠ "track") :
    PyDict.get (normalize_metadata info).1 k = PyDict.get info k := by
  simp only [normalize_metadata]
  cases htr : trackAfterStrip (finalArtist info)
      (selectTrack (PyDict.set info "artist" (PyVal.str (finalArtist info)))) with
  | ok t =>
    simp only [htr]
    rw [get_set_ne _ _ _ _ h2, get_set_ne _ _ _ _ h1]
  | error e =>
    simp only [htr]
    rw [get_set_ne _ _ _ _ h1]

/-- Witness for C10: the album and uploader entries of a concrete record
are untouched (shown for the album key). -/
theorem normalize_frame_spec_witness :
    PyDict.get (normalize_metadata w10).1 "album" = PyDict.get w10 "album" :=
  normalize_frame_spec w10 "album" (by decide) (by decide)

/-- Counterexample to C5: on `cex5` (artist field `"None"`, title field
the value `None`) the source raises a `TypeError` -- the track fallback is
the non-string `None`, its `str()` starts with the artist `"None"`, and
the code slices it.  The claim "never raises under any input shape" is
therefore false of the code. -/
theorem normalize_total_cex : ((normalize_metadata cex5).2).isSome = true := rfl

/-- C5 amended: `normalize_metadata` terminates normally (no exception)
for every record whose track and title fields, when present, hold string
values; missing data degrades to the "Unknown Artist" / "Unknown Track"
sentinels.  (The unrestricted claim is refuted by `normalize_total_cex`.) -/
theorem normalize_total_amended (info : PyDict)
    (htrk : ∀ v, PyDict.get info "track" = some v → ∃ s, v = PyVal.str s)
    (hti : ∀ v, PyDict.get info "title" = some v → ∃ s, v = PyVal.str s) :
    (normalize_metadata info).2 = Option.none := by
  have hsel : ∃ s, selectTrack info = PyVal.str s := by
    cases hg : PyDict.get info "track" with
    | none =>
      cases hg2 : PyDict.get info "title" with
      | none => exact ⟨"Unknown Track", by simp [selectTrack, hg, hg2]⟩
      | some v =>
        obtain ⟨s, rfl⟩ := hti v hg2
        exact ⟨s, by simp [selectTrack, hg, hg2]⟩
    | some v =>
      obtain ⟨s, rfl⟩ := htrk v hg
      by_cases hp : (s != "") = true
      · exact ⟨s, by simp [selectTrack, hg, pyTruthy, hp]⟩
      · cases hg2 : PyDict.get info "title" with
        | none => exact ⟨"Unknown Track", by simp [selectTrack, hg, pyTruthy, hp, hg2]⟩
        | some v2 =>
          obtain ⟨s2, rfl⟩ := hti v2 hg2
          exact ⟨s2, by simp [selectTrack, hg, pyTruthy, hp, hg2]⟩
  obtain ⟨s, hs⟩ := hsel
  obtain ⟨r, hr⟩ := trackAfterStrip_str_ok (finalArtist info) s
  simp only [normalize_metadata, selectTrack_set_artist, hs, hr]

/-- Witness for C5 amended at a concrete string-track record. -/
theorem normalize_total_amended_witness : (normalize_metadata w5).2 = Option.none :=
  normalize_total_amended w5
    (fun _ h => ⟨"Song", (Option.some.inj h).symm⟩)
    (fun _ h => Option.noConfusion h)

/-- Counterexample to C2 as stated: the claim also strips surrounding
whitespace from the remainder, but the code's `lstrip(" -:|")` strips only
leading separator characters.  On artist `"A"`, track `"A - song "` the
code produces `"song "` (trailing space kept) while the claim's algorithm
(`claimTrack`) produces `"song"`. -/
theorem track_whitespace_cex :
    PyDict.get (normalize_metadata cex2).1 "track" = some (PyVal.str "song ")
    ∧ claimTrack cex2 = PyVal.str "song"
    ∧ ("song " : String) ≠ "song" :=
  ⟨rfl, rfl, by decide⟩

/-- C2 amended: on every record whose normalization completes, the track
written by `normalize_metadata` equals the claim's algorithm with the
whitespace correction: track field if truthy else title field else
"Unknown Track"; then, if the final artist is not "Unknown Artist" and the
track case-insensitively starts with it, the artist-length prefix is
removed (preserving the remainder's casing) and leading characters from
the set space/hyphen/colon/pipe are stripped -- leading other whitespace
and trailing whitespace are preserved -- and the result replaces the track
only if it is non-empty ignoring whitespace, else the pre-stripped track
is kept. -/
theorem track_normalization_amended (info : PyDict)
    (h : (normalize_metadata info).2 = Option.none) :
    PyDict.get (normalize_metadata info).1 "track" = some (amendedTrack info) := by
  obtain ⟨t, htr, hget⟩ := normalize_track_some info h
  rw [hget]
  have hbne : (finalArtist info != "") = true :=
    bne_iff_ne.mpr (finalArtist_ne_empty info)
  simp only [trackAfterStrip, hbne, Bool.true_and] at htr
  simp only [amendedTrack]
  by_cases hU : (finalArtist info != "Unknown Artist") = true
  · simp only [hU, if_true] at htr ⊢
    cases hct : selectTrack info with
    | str s =>
      rw [hct] at htr
      simp only [pyStr] at htr
      simp only []
      by_cases hsw : strStartsWith (strLower s) (strLower (finalArtist info)) = true
      · rw [if_pos hsw] at htr
        simp only [hsw, if_true]
        by_cases hcl : (pyStrip (pyLstripSeps (strDrop s (finalArtist info).length)) != "") = true
        · rw [if_pos hcl] at htr
          simp only [hcl, if_true]
          exact congrArg some (Except.ok.inj htr).symm
        · rw [if_neg hcl] at htr
          simp only [hcl, Bool.false_eq_true, if_false]
          exact congrArg some (Except.ok.inj htr).symm
      · rw [if_neg hsw] at htr
        simp only [hsw, Bool.false_eq_true, if_false]
        exact congrArg some (Except.ok.inj htr).symm
    | vlist l =>
      rw [hct] at htr
      by_cases hsw : strStartsWith (strLower (pyStr (PyVal.vlist l))) (strLower (finalArtist info)) = true
      · rw [if_pos hsw] at htr
        exact absurd htr (by simp)
      · rw [if_neg hsw] at htr
        exact congrArg some (Except.ok.inj htr).symm
    | vdict d =>
      rw [hct] at htr
      by_cases hsw : strStartsWith (strLower (pyStr (PyVal.vdict d))) (strLower (finalArtist info)) = true
      · rw [if_pos hsw] at htr
        exact absurd htr (by simp)
      · rw [if_neg hsw] at htr
        exact congrArg some (Except.ok.inj htr).symm
    | vnone =>
      rw [hct] at htr
      by_cases hsw : strStartsWith (strLower (pyStr PyVal.vnone)) (strLower (finalArtist info)) = true
      · rw [if_pos hsw] at htr
        exact absurd htr (by simp)
      · rw [if_neg hsw] at htr
        exact congrArg some (Except.ok.inj htr).symm
    | other r b =>
      rw [hct] at htr
      by_cases hsw : strStartsWith (strLower (pyStr (PyVal.other r b))) (strLower (finalArtist info)) = true
      · rw [if_pos hsw] at htr
        exact absurd htr (by simp)
      · rw [if_neg hsw] at htr
        exact congrArg some (Except.ok.inj htr).symm
  · have hU2 : (finalArtist info != "Unknown Artist") = false := by
      rw [Bool.not_eq_true] at hU
      exact hU
    simp only [hU2, Bool.false_eq_true, if_false] at htr ⊢
    exact congrArg some (Except.ok.inj htr).symm

/-- Witness for C2 amended at the concrete record `cex2`: the code's track
matches the amended algorithm (both give `"song "`). -/
theorem track_normalization_amended_witness :
    PyDict.get (normalize_metadata cex2).1 "track" = some (amendedTrack cex2) :=
  track_normalization_amended cex2 rfl

/-- Counterexample to C3 as stated: on artist field `"X"`, track field
`"XX"` the code strips one artist layer, leaving track `"X"`, which still
starts with the artist `"X"` case-insensitively -- and the claim's only
exception does not apply, since stripping left the non-empty `"X"`. -/
theorem track_artist_start_cex :
    PyDict.get (normalize_metadata cex3).1 "artist" = some (PyVal.str "X")
    ∧ PyDict.get (normalize_metadata cex3).1 "track" = some (PyVal.str "X")
    ∧ strStartsWith (strLower "X") (strLower "X") = true
    ∧ pyStrip (pyLstripSeps (strDrop "XX" ("X" : String).length)) ≠ "" :=
  ⟨rfl, rfl, rfl, by decide⟩

/-- C3 amended: on a successfully normalized record whose effective track
is a string, if the final artist is not the "Unknown Artist" sentinel and
removing one artist-length prefix (plus leading separators) yields a
remainder that does not itself start with the artist case-insensitively,
then the resulting track does not start with the artist -- except when the
stripped remainder is empty ignoring whitespace, in which case the
original track is kept.  (The code removes only one prefix layer, and
records whose artist is the sentinel are never stripped at all; the
unrestricted claim is refuted by `track_artist_start_cex`.) -/
theorem track_no_artist_start_amended (info : PyDict) (s : String) (t : PyVal)
    (hok : (normalize_metadata info).2 = Option.none)
    (hbase : selectTrack info = PyVal.str s)
    (hA : finalArtist info ≠ "Unknown Artist")
    (hnd : strStartsWith (strLower (pyLstripSeps (strDrop s (finalArtist info).length)))
        (strLower (finalArtist info)) = false)
    (ht : PyDict.get (normalize_metadata info).1 "track" = some t) :
    strStartsWith (strLower (pyStr t)) (strLower (finalArtist info)) = false
    ∨ (t = PyVal.str s
       ∧ pyStrip (pyLstripSeps (strDrop s (finalArtist info).length)) = "") := by
  obtain ⟨t2, htr, hget⟩ := normalize_track_some info hok
  have ht2 : t = t2 := Option.some.inj (ht.symm.trans hget)
  subst ht2
  have hbne : (finalArtist info != "") = true :=
    bne_iff_ne.mpr (finalArtist_ne_empty info)
  have hUb : (finalArtist info != "Unknown Artist") = true := bne_iff_ne.mpr hA
  simp only [trackAfterStrip, hbne, hUb, Bool.true_and, if_true, hbase] at htr
  simp only [pyStr] at htr
  by_cases hsw : strStartsWith (strLower s) (strLower (finalArtist info)) = true
  · rw [if_pos hsw] at htr
    by_cases hcl : (pyStrip (pyLstripSeps (strDrop s (finalArtist info).length)) != "") = true
    · rw [if_pos hcl] at htr
      left
      rw [← Except.ok.inj htr]
      simpa using hnd
    · rw [if_neg hcl] at htr
      right
      rw [Bool.not_eq_true] at hcl
      exact ⟨(Except.ok.inj htr).symm, bne_eq_false_iff_eq.mp hcl⟩
  · rw [if_neg hsw] at htr
    left
    rw [← Except.ok.inj htr]
    simp only [pyStr]
    rw [Bool.not_eq_true] at hsw
    exact hsw

/-- Witness for C3 amended at `w3` (artist `"A"`, track `"A - B"`): the
resulting track `"B"` does not start with the artist. -/
theorem track_no_artist_start_amended_witness :
    strStartsWith (strLower (pyStr (PyVal.str "B"))) (strLower (finalArtist w3)) = false
    ∨ (PyVal.str "B" = PyVal.str "A - B"
       ∧ pyStrip (pyLstripSeps (strDrop "A - B" (finalArtist w3).length)) = "") :=
  track_no_artist_start_amended w3 "A - B" (PyVal.str "B") rfl rfl (by decide) (by decide) rfl

lemma mk_data (s : String) : String.mk s.data = s := by
  cases s
  rfl

lemma splitCommaAux_no_comma (l : List Char) (cur : List Char)
    (h : l.contains ',' = false) :
    splitCommaAux l cur = [String.mk (cur.reverse ++ l)] := by
  induction l generalizing cur with
  | nil => simp [splitCommaAux]
  | cons c rest ih =>
    rw [List.contains_cons] at h
    obtain ⟨hc, hr⟩ := Bool.or_eq_false_iff.mp h
    simp only [splitCommaAux]
    rw [if_neg (Ne.symm (beq_eq_false_iff_ne.mp hc))]
    rw [ih _ hr]
    simp [List.reverse_cons, List.append_assoc]

lemma pySplitComma_no_comma (s : String) (h : s.data.contains ',' = false) :
    pySplitComma s = [s] := by
  unfold pySplitComma
  rw [splitCommaAux_no_comma _ _ h]
  simp [mk_data]

/-- Counterexample to C4: on the record whose artist field is the list
`["A, B"]`, normalization produces artist `"A, B"` and track
`"Unknown Track"`; feeding these back in as artist/track fields and
normalizing again re-splits the artist at the comma, producing `"A & B"`.
Normalization is therefore not idempotent as claimed. -/
theorem normalize_idempotent_cex :
    PyDict.get (normalize_metadata cex4).1 "artist" = some (PyVal.str "A, B")
    ∧ PyDict.get (normalize_metadata cex4).1 "track" = some (PyVal.str "Unknown Track")
    ∧ PyDict.get (normalize_metadata (rebuildRecord "A, B" "Unknown Track")).1 "artist"
        = some (PyVal.str "A & B")
    ∧ ("A & B" : String) ≠ "A, B" :=
  ⟨rfl, rfl, rfl, by decide⟩

/-- C4 amended: re-normalizing the rebuilt record is a no-op provided the
produced artist `A` contains no comma (so it is not re-split) and is
whitespace-trimmed, and the produced track `T` is a non-empty string that
does not trigger the stripping branch again: either the artist is the
"Unknown Artist" sentinel, or `T` does not start with `A`
case-insensitively, or stripping would leave it empty (so the original is
kept).  (The unrestricted claim is refuted by `normalize_idempotent_cex`;
list-sourced artist candidates may contain commas, an empty produced track
falls back to "Unknown Track", and a re-matching track is stripped twice.) -/
theorem normalize_idempotent_amended (info : PyDict) (A T : String)
    (hA : PyDict.get (normalize_metadata info).1 "artist" = some (PyVal.str A))
    (hT : PyDict.get (normalize_metadata info).1 "track" = some (PyVal.str T))
    (hTne : T ≠ "")
    (hAc : A.data.contains ',' = false)
    (hAs : pyStrip A = A)
    (hbr : A = "Unknown Artist" ∨ strStartsWith (strLower T) (strLower A) = false
        ∨ pyStrip (pyLstripSeps (strDrop T A.length)) = "") :
    PyDict.get (normalize_metadata (rebuildRecord A T)).1 "artist" = some (PyVal.str A)
    ∧ PyDict.get (normalize_metadata (rebuildRecord A T)).1 "track" = some (PyVal.str T)
    ∧ (normalize_metadata (rebuildRecord A T)).2 = Option.none := by
  have hAeq : A = finalArtist info := by
    have h2 := (normalize_artist_eq info).symm.trans hA
    exact (PyVal.str.inj (Option.some.inj h2)).symm
  have hAne : A ≠ "" := by
    rw [hAeq]
    exact finalArtist_ne_empty info
  have hfa2 : finalArtist (rebuildRecord A T) = A := by
    have hraw : rawArtistOf (rebuildRecord A T) = some (PyVal.str A) := by
      simp [rawArtistOf, rebuildRecord, PyDict.get, optTruthy, pyTruthy, bne_iff_ne.mpr hAne]
    simp only [finalArtist, finalArtistList, hraw, pyTruthy, bne_iff_ne.mpr hAne, if_true]
    rw [show artistParts (PyVal.str A) = [PyVal.str A] from by
      simp [artistParts, pySplitComma_no_comma A hAc]]
    simp only [artistLoop, pyStr, hAs, bne_iff_ne.mpr hAne, List.contains_nil,
      Bool.not_false, Bool.and_self, Bool.true_and, if_true, List.take_succ_cons,
      List.take_nil, List.isEmpty_cons, Bool.false_eq_true, if_false, joinAmp]
  have hsel : selectTrack (PyDict.set (rebuildRecord A T) "artist" (PyVal.str A))
      = PyVal.str T := by
    rw [selectTrack_set_artist]
    simp [selectTrack, rebuildRecord, PyDict.get, pyTruthy, bne_iff_ne.mpr hTne]
  have htr : trackAfterStrip A (PyVal.str T) = Except.ok (PyVal.str T) := by
    by_cases hU : A = "Unknown Artist"
    · simp [trackAfterStrip, hU]
    · rcases hbr with hbr1 | hbr2 | hbr3
      · exact absurd hbr1 hU
      · simp only [trackAfterStrip, bne_iff_ne.mpr hAne, bne_iff_ne.mpr hU,
          Bool.and_self, Bool.true_and, if_true]
        simp only [pyStr, hbr2, Bool.false_eq_true, if_false]
      · simp only [trackAfterStrip, bne_iff_ne.mpr hAne, bne_iff_ne.mpr hU,
          Bool.and_self, Bool.true_and, if_true]
        simp only [pyStr]
        by_cases hsw : strStartsWith (strLower T) (strLower A) = true
        · rw [if_pos hsw]
          simp [hbr3]
        · rw [if_neg hsw]
  refine ⟨?_, ?_, ?_⟩
  · simp only [normalize_metadata, hfa2, hsel, htr]
    rw [get_set_ne _ _ _ _ (by decide), get_set_self]
  · simp only [normalize_metadata, hfa2, hsel, htr]
    rw [get_set_self]
  · simp only [normalize_metadata, hfa2, hsel, htr]

/-- Witness for C4 amended at `w4` (artist `"Bob"`, track `"Bob - Song"`,
first pass gives artist `"Bob"`, track `"Song"`): the second pass keeps
both unchanged. -/
theorem normalize_idempotent_amended_witness :
    PyDict.get (normalize_metadata (rebuildRecord "Bob" "Song")).1 "artist"
      = some (PyVal.str "Bob")
    ∧ PyDict.get (normalize_metadata (rebuildRecord "Bob" "Song")).1 "track"
      = some (PyVal.str "Song")
    ∧ (normalize_metadata (rebuildRecord "Bob" "Song")).2 = Option.none :=
  normalize_idempotent_amended w4 "Bob" "Song" rfl rfl (by decide) (by decide) rfl
    (Or.inr (Or.inl (by decide)))

lemma processEntries_map (url : String) (d : PyDict) (l : List PyDict)
    (hok : ∀ e ∈ l, (normalize_metadata e).2 = Option.none) :
    processEntries url d (l.map PyVal.vdict)
      = Except.ok (l.map (fun e => builtItem url d (normalize_metadata e).1)) := by
  induction l with
  | nil => rfl
  | cons e rest ih =>
    cases hne : normalize_metadata e with
    | mk temp err =>
      have he2 : err = Option.none := by
        have h3 := hok e (List.mem_cons.mpr (Or.inl rfl))
        rw [hne] at h3
        exact h3
      subst he2
      simp only [List.map_cons, processEntries, hne,
        ih (fun x hx => hok x (List.mem_cons.mpr (Or.inr hx)))]

/-- C7: for a playlist dict whose entries are records that all normalize
without an exception, the aggregator produces exactly the input sequence
mapped through the normalizer, in the extractor's original order (each
record normalized once, insertion order preserved). -/
theorem aggregator_map_spec (url : String) (d : PyDict) (l : List PyDict)
    (hent : PyDict.get d "entries" = some (PyVal.vlist (l.map PyVal.vdict)))
    (hok : ∀ e ∈ l, (normalize_metadata e).2 = Option.none) :
    get_video_info_core url (some d)
      = l.map (fun e => builtItem url d (normalize_metadata e).1) := by
  cases d with
  | nil => simp [PyDict.get] at hent
  | cons e rest =>
    have hkey : PyDict.hasKey (e :: rest) "entries" = true := by
      simp [PyDict.hasKey, hent]
    simp only [get_video_info_core, List.isEmpty_cons, Bool.false_eq_true, if_false,
      hkey, if_true, hent, processEntries_map url (e :: rest) l hok]

/-- Witness for C7 at a concrete one-entry playlist. -/
theorem aggregator_map_spec_witness :
    get_video_info_core "u" (some d7)
      = [e7].map (fun e => builtItem "u" d7 (normalize_metadata e).1) :=
  aggregator_map_spec "u" d7 [e7] rfl
    (fun e he => by
      have h2 := List.mem_singleton.mp he
      subst h2
      rfl)

/-- C8: when no information is obtained at all, or the playlist entry
sequence is empty, the aggregator yields the empty report: not a playlist,
no playlist title, no items. -/
theorem aggregator_empty_spec (url : String) (info : Option PyDict)
    (h : info = Option.none
      ∨ ∃ d, info = some d ∧ (d = [] ∨ PyDict.get d "entries" = some (PyVal.vlist []))) :
    reportOf (get_video_info_core url info)
      = { is_playlist := false, playlist_title := Option.none, items := [] } := by
  rcases h with h | ⟨d, rfl, hd⟩
  · subst h
    rfl
  · rcases hd with rfl | hent
    · rfl
    · cases d with
      | nil => rfl
      | cons e rest =>
        have hkey : PyDict.hasKey (e :: rest) "entries" = true := by
          simp [PyDict.hasKey, hent]
        simp only [get_video_info_core, List.isEmpty_cons, Bool.false_eq_true, if_false,
          hkey, if_true, hent]
        rfl

/-- Witness for C8 at the "no information" input. -/
theorem aggregator_empty_spec_witness :
    reportOf (get_video_info_core "u" Option.none)
      = { is_playlist := false, playlist_title := Option.none, items := [] } :=
  aggregator_empty_spec "u" Option.none (Or.inl rfl)

lemma builtItem_album (url : String) (info temp : PyDict) :
    PyDict.get (builtItem url info temp) "album" = Option.none := by
  simp [builtItem, PyDict.get]

lemma singleBuilt_album (url : String) (temp : PyDict) :
    PyDict.get (singleBuilt url temp) "album" = Option.none := by
  simp [singleBuilt, PyDict.get]

lemma processEntries_album (url : String) (d : PyDict) :
    ∀ (l : List PyVal) (res : List PyDict), processEntries url d l = Except.ok res →
      ∀ r ∈ res, PyDict.get r "album" = Option.none := by
  intro l
  induction l with
  | nil =>
    intro res h r hr
    rw [← Except.ok.inj h] at hr
    exact absurd hr (List.not_mem_nil r)
  | cons p rest ih =>
    intro res h r hr
    cases p with
    | vdict dd =>
      simp only [processEntries] at h
      cases hne : normalize_metadata dd with
      | mk temp err =>
        rw [hne] at h
        cases err with
        | none =>
          cases hrest : processEntries url d rest with
          | ok others =>
            rw [hrest] at h
            rw [← Except.ok.inj h] at hr
            rcases List.mem_cons.mp hr with rfl | hmem
            · exact builtItem_album url d temp
            · exact ih others hrest r hmem
          | error e2 =>
            rw [hrest] at h
            exact absurd h (by simp)
        | some e2 => exact absurd h (by simp)
    | str s =>
      simp only [processEntries] at h
      exact absurd h (by simp)
    | vlist l2 =>
      simp only [processEntries] at h
      exact absurd h (by simp)
    | vnone =>
      simp only [processEntries] at h
      exact absurd h (by simp)
    | other r2 b2 =>
      simp only [processEntries] at h
      exact absurd h (by simp)

/-- C9 amended: the album field is never propagated -- every item produced
by the aggregator lacks an album key entirely (so the bot's album display
branch can never fire for these items); within `normalize_metadata` itself
the album entry is merely left untouched (see C10). -/
theorem album_never_output (url : String) (info : Option PyDict) (r : PyDict)
    (h : r ∈ get_video_info_core url info) :
    PyDict.get r "album" = Option.none := by
  cases info with
  | none => simp [get_video_info_core] at h
  | some d =>
    simp only [get_video_info_core] at h
    by_cases hd : d.isEmpty = true
    · rw [if_pos hd] at h
      exact absurd h (List.not_mem_nil r)
    · rw [if_neg hd] at h
      by_cases hk : PyDict.hasKey d "entries" = true
      · rw [if_pos hk] at h
        cases hg : PyDict.get d "entries" with
        | none =>
          rw [hg] at h
          simp at h
        | some v =>
          rw [hg] at h
          cases v with
          | vlist l =>
            have h2 : r ∈ (match processEntries url d l with
                | Except.ok results => results
                | Except.error _ => ([] : List PyDict)) := h
            cases hp : processEntries url d l with
            | ok results =>
              rw [hp] at h2
              exact processEntries_album url d l results hp r h2
            | error e2 =>
              rw [hp] at h2
              simp at h2
          | str s => simp at h
          | vdict dd => simp at h
          | vnone => simp at h
          | other r2 b2 => simp at h
      · rw [if_neg hk] at h
        cases hne : normalize_metadata d with
        | mk temp err =>
          rw [hne] at h
          cases err with
          | none =>
            have h2 := List.mem_singleton.mp h
            subst h2
            exact singleBuilt_album url temp
          | some e2 => simp at h

/-- Witness for C9 amended: the item produced for the concrete entry `e9`
has no album key. -/
theorem album_never_output_witness :
    PyDict.get (builtItem "u" d9 (normalize_metadata e9).1) "album" = Option.none :=
  album_never_output "u" (some d9) (builtItem "u" d9 (normalize_metadata e9).1)
    (by
      have h2 : get_video_info_core "u" (some d9)
          = [builtItem "u" d9 (normalize_metadata e9).1] := rfl
      rw [h2]
      exact List.mem_singleton.mpr rfl)

/-- Counterexample to C9 as stated: the raw record `e9` carries the
non-empty album `"AlbumX"`, yet the aggregator's output item omits the
album entirely (its album lookup yields nothing), so the album does not
pass through to the normalized output item. -/
theorem album_passthrough_cex :
    PyDict.get e9 "album" = some (PyVal.str "AlbumX")
    ∧ (get_video_info_core "u" (some d9)).map (fun r => PyDict.get r "album")
        = [Option.none]
    ∧ Option.none ≠ some (PyVal.str "AlbumX") :=
  ⟨rfl, rfl, by simp⟩

lemma joinNL_snoc_len (l : List String) (x : String) (h : l ≠ []) :
    (joinNL (l ++ [x])).length = (joinNL l).length + 1 + x.length := by
  induction l with
  | nil => exact absurd rfl h
  | cons a rest ih =>
    cases rest with
    | nil =>
      show (joinNL [a, x]).length = (joinNL [a]).length + 1 + x.length
      simp only [joinNL, String.length_append]
      rw [show ("\n" : String).length = 1 from rfl]
    | cons b rest2 =>
      have ih2 := ih (by simp)
      rw [show (a :: b :: rest2) ++ [x] = a :: b :: (rest2 ++ [x]) from by simp]
      have ih3 : (joinNL (b :: (rest2 ++ [x]))).length
          = (joinNL (b :: rest2)).length + 1 + x.length := by
        simpa using ih2
      simp only [joinNL, String.length_append]
      rw [show ("\n" : String).length = 1 from rfl, ih3]
      omega

lemma renderLoop_spec (data : List PyDict) : ∀ (msgs : List String) (i : Nat), msgs ≠ [] →
    ∃ k, k ≤ data.length ∧
      renderLoop msgs i data
        = msgs ++ (linesFrom i data).take k
            ++ (if k < data.length then [truncMarker] else [])
      ∧ (joinNL (msgs ++ (linesFrom i data).take k)).length
          ≤ max 1900 (joinNL msgs).length
      ∧ (k < data.length →
          (joinNL (msgs ++ (linesFrom i data).take k)).length + 1
              + ((linesFrom i data).getD k "").length > 1900) := by
  induction data with
  | nil =>
    intro msgs i hm
    refine ⟨0, Nat.le_refl 0, ?_, ?_, ?_⟩
    · simp [renderLoop, linesFrom]
    · simp only [linesFrom, List.take_nil, List.append_nil]
      exact Nat.le_max_right 1900 (joinNL msgs).length
    · intro hk
      exact absurd hk (by simp)
  | cons item rest ih =>
    intro msgs i hm
    by_cases hc : (joinNL msgs ++ "\n" ++ showLine i item).length > 1900
    · refine ⟨0, Nat.zero_le _, ?_, ?_, ?_⟩
      · simp only [renderLoop, if_pos hc]
        simp [linesFrom]
      · simp only [List.take_zero, List.append_nil]
        exact Nat.le_max_right 1900 (joinNL msgs).length
      · intro hk
        simp only [List.take_zero, List.append_nil, linesFrom, List.getD_cons_zero]
        rw [String.length_append, String.length_append,
          show ("\n" : String).length = 1 from rfl] at hc
        omega
    · have hc2 : (joinNL msgs ++ "\n" ++ showLine i item).length ≤ 1900 :=
        Nat.le_of_not_lt hc
      obtain ⟨k, hk_le, heq, hbound, hmin⟩ := ih (msgs ++ [showLine i item]) (i + 1) (by simp)
      have hlen2 : (joinNL (msgs ++ [showLine i item])).length
          = (joinNL msgs).length + 1 + (showLine i item).length :=
        joinNL_snoc_len msgs _ hm
      have hle1900 : (joinNL (msgs ++ [showLine i item])).length ≤ 1900 := by
        rw [String.length_append, String.length_append,
          show ("\n" : String).length = 1 from rfl] at hc2
        omega
      refine ⟨k + 1, by simpa using Nat.succ_le_succ hk_le, ?_, ?_, ?_⟩
      · simp only [renderLoop, if_neg hc]
        rw [heq]
        simp [linesFrom, List.take_succ_cons, List.append_assoc, List.length_cons,
          Nat.add_lt_add_iff_right]
      · have hmax : max 1900 (joinNL (msgs ++ [showLine i item])).length = 1900 :=
          max_eq_left hle1900
        rw [hmax] at hbound
        have hgoal : msgs ++ (linesFrom i (item :: rest)).take (k + 1)
            = (msgs ++ [showLine i item]) ++ (linesFrom (i + 1) rest).take k := by
          simp [linesFrom, List.take_succ_cons, List.append_assoc]
        rw [hgoal]
        exact Nat.le_trans hbound (Nat.le_max_left 1900 (joinNL msgs).length)
      · intro hk2
        have hk3 : k < rest.length := by
          simpa using Nat.lt_of_succ_lt_succ hk2
        have hmin2 := hmin hk3
        have hgoal : msgs ++ (linesFrom i (item :: rest)).take (k + 1)
            = (msgs ++ [showLine i item]) ++ (linesFrom (i + 1) rest).take k := by
          simp [linesFrom, List.take_succ_cons, List.append_assoc]
        rw [hgoal]
        simpa only [linesFrom, List.getD_cons_succ] using hmin2

/-- Counterexample to C6 as stated: on `cdata6` (headers and a first item
line summing to exactly the 1900 budget, then a second item) the rendering
appends the truncation marker after the budget is already filled, so the
final reply is 1916 characters -- the rendered output exceeds the 1900
budget, contradicting the claim's last conjunct. -/
lemma bigT_len : bigT.length = 1856 := by
  show (List.replicate 1856 'T').length = 1856
  exact List.length_replicate 1856 'T'

lemma hdrs_cdata6_len : (joinNL (hdrs cdata6)).length = 36 := by decide

lemma showLine_item61 : showLine 1 item61 = toString 1 ++ ". " ++ bigT ++ " - " ++ "A" := by
  simp [showLine, item61, PyDict.get, pyStr]

lemma showLine_item61_len : (showLine 1 item61).length = 1863 := by
  rw [showLine_item61, String.length_append, String.length_append,
    String.length_append, String.length_append]
  rw [show (toString 1).length = 1 from rfl, show (". " : String).length = 2 from rfl,
    show (" - " : String).length = 3 from rfl, show ("A" : String).length = 1 from rfl,
    bigT_len]

lemma render_cdata6_step1 :
    ¬ ((joinNL (hdrs cdata6) ++ "\n" ++ showLine 1 item61).length > 1900) := by
  rw [String.length_append, String.length_append,
    show ("\n" : String).length = 1 from rfl, hdrs_cdata6_len, showLine_item61_len]
  omega

lemma render_cdata6_mid_len :
    (joinNL (hdrs cdata6 ++ [showLine 1 item61])).length = 1900 := by
  rw [joinNL_snoc_len _ _ (by simp [hdrs]), hdrs_cdata6_len, showLine_item61_len]

lemma render_cdata6_step2 :
    (joinNL (hdrs cdata6 ++ [showLine 1 item61]) ++ "\n" ++ showLine 2 item62).length
      > 1900 := by
  rw [String.length_append, String.length_append,
    show ("\n" : String).length = 1 from rfl, render_cdata6_mid_len,
    show (showLine 2 item62).length = 8 from rfl]
  omega

lemma render_cdata6_eq :
    renderLoop (hdrs cdata6) 1 cdata6
      = (hdrs cdata6 ++ [showLine 1 item61]) ++ [truncMarker] := by
  show renderLoop (hdrs cdata6) 1 [item61, item62] = _
  rw [show renderLoop (hdrs cdata6) 1 [item61, item62]
      = renderLoop (hdrs cdata6 ++ [showLine 1 item61]) 2 [item62] from by
    simp only [renderLoop]
    rw [if_neg render_cdata6_step1]]
  rw [show renderLoop (hdrs cdata6 ++ [showLine 1 item61]) 2 [item62]
      = (hdrs cdata6 ++ [showLine 1 item61]) ++ [truncMarker] from by
    simp only [renderLoop]
    rw [if_pos render_cdata6_step2]]

/-- Counterexample to C6 as stated: on `cdata6` (headers and a first item
line summing to exactly the 1900 budget, then a second item) the rendering
appends the truncation marker after the budget is already filled, so the
final reply is 1916 characters -- the rendered output exceeds the 1900
budget, contradicting the claim's last conjunct. -/
theorem render_budget_cex :
    (showmusicRender cdata6).length = 1916 ∧ 1900 < 1916 := by
  constructor
  · show (joinNL (renderLoop (hdrs cdata6) 1 cdata6)).length = 1916
    rw [render_cdata6_eq, joinNL_snoc_len _ _ (by simp), render_cdata6_mid_len,
      show (truncMarker).length = 15 from rfl]
  · decide

/-- C6 amended: rendering appends whole item lines in order; there exists
a cut point `k` such that the output is the headers, the first `k` item
lines, and (iff some item did not fit) exactly one truncation marker;
every accepted item line keeps the running joined length within the 1900
budget (given the unchecked header lines as a floor), and the marker is
appended as soon as the next tentative line would overflow -- but the
marker itself is not counted, so the final output may exceed the budget by
up to 16 characters (newline plus marker).  (The claim's "never exceeds
the budget" conjunct is refuted by `render_budget_cex`.) -/
theorem render_truncation_amended (data : List PyDict) :
    ∃ k, k ≤ data.length ∧
      renderLoop (hdrs data) 1 data
        = hdrs data ++ (linesFrom 1 data).take k
            ++ (if k < data.length then [truncMarker] else [])
      ∧ (joinNL (hdrs data ++ (linesFrom 1 data).take k)).length
          ≤ max 1900 (joinNL (hdrs data)).length
      ∧ (showmusicRender data).length ≤ max 1900 (joinNL (hdrs data)).length + 16
      ∧ (k < data.length →
          (joinNL (hdrs data ++ (linesFrom 1 data).take k)).length + 1
              + ((linesFrom 1 data).getD k "").length > 1900) := by
  obtain ⟨k, hle, heq, hbound, hmin⟩ :=
    renderLoop_spec data (hdrs data) 1 (by simp [hdrs])
  refine ⟨k, hle, heq, hbound, ?_, hmin⟩
  unfold showmusicRender
  rw [heq]
  by_cases hk : k < data.length
  · rw [if_pos hk]
    rw [show hdrs data ++ (linesFrom 1 data).take k ++ [truncMarker]
        = (hdrs data ++ (linesFrom 1 data).take k) ++ [truncMarker] from by
      simp [List.append_assoc]]
    rw [joinNL_snoc_len _ _ (by simp [hdrs])]
    rw [show (truncMarker).length = 15 from rfl]
    omega
  · rw [if_neg hk]
    rw [List.append_nil]
    omega
